import Mathlib

/-!
# goerr: errors with a message, a wrapped cause and a captured call stack

A shallow embedding of `goerr.go` (package `goerr`).

Conventions of the embedding

* A Go `string` is a Lean `String`.  The source only searches for and splits on
  the single code points `/`, `.` and `·`, so positions are counted in code
  points throughout (searching and slicing use the same unit).
* A Go `error` interface value is a value of the inductive type `error`:
  `nil`, a value of some other package (`foreign`, known only through the text
  of its `Error()` method), or a pointer to an `errorEx` of this package.
* A run-time panic is the `Except.error` result of a function; a normal return
  is `Except.ok`.
* What the Go runtime supplies (the configured `MaxStackDepth`, the return
  addresses on the call stack, the symbol table, `fmt.Sprintf`) is a parameter,
  the structure `Runtime`.
* What the operating system supplies to `sourceLine` (the result of `os.Open`
  and the lines a `bufio.Scanner` delivers from the opened file) is a
  parameter, the structure `FileSystem`.
-/

namespace Goerr

/-! ## Go values -/

/-- Run-time panics the code of this package can raise. -/
inductive Panic where
  | nilDereference
  | indexOutOfRange
  | makeNegativeLen
  | typeAssertion
  deriving DecidableEq

/-- Values of Go's `any` that are passed as message arguments. -/
inductive Any where
  | str (s : String)
  | int (n : Int)
  deriving DecidableEq

/-- The part of a `*runtime.Func` the package reads: `Name()` and `FileLine(pc)`. -/
structure Func where
  name : String
  fileLine : Nat → String × Int

/-- The environment of a call: configuration and Go runtime services. -/
structure Runtime where
  /-- The package variable `MaxStackDepth` (a Go `int`). -/
  MaxStackDepth : Int
  /-- The return addresses `runtime.Callers(2, ·)` can report, innermost first. -/
  callers : List Nat
  /-- The symbol table: `runtime.FuncForPC`, `none` for Go's `nil`. -/
  FuncForPC : Nat → Option Func
  /-- The function `fmt.Sprintf` of the Go standard library. -/
  Sprintf : String → List Any → String

/-- The method `(*runtime.Func).Name()`: defined on a nil receiver, where it is empty. -/
def Func.Name : Option Func → String
  | none => ""
  | some fn => fn.name

/-! ## Strings -/

/-- The verb `%d` of `fmt` on an `int`: decimal digits, with a minus sign. -/
def decimal : Int → String
  | Int.ofNat n => Nat.repr n
  | Int.negSucc n => "-" ++ Nat.repr (n + 1)

/-- Position of the first `c` in `s`, or `-1`. -/
def indexChars (c : Char) : List Char → Int
  | [] => -1
  | x :: xs =>
    if x = c then 0
    else
      let r := indexChars c xs
      if r < 0 then -1 else r + 1

/-- Position of the last `c` in `s`, or `-1`. -/
def lastIndexChars (c : Char) : List Char → Int
  | [] => -1
  | x :: xs =>
    let r := lastIndexChars c xs
    if 0 ≤ r then r + 1
    else if x = c then 0
    else -1

/-- The pieces of `s` between the occurrences of `sep`; never empty. -/
def splitChars (sep : Char) : List Char → List (List Char)
  | [] => [[]]
  | x :: xs =>
    if x = sep then [] :: splitChars sep xs
    else
      match splitChars sep xs with
      | [] => [[x]]
      | p :: ps => (x :: p) :: ps

/-- Every `old` in `s` replaced by `new`. -/
def replaceChars (old new : Char) : List Char → List Char
  | [] => []
  | x :: xs => (if x = old then new else x) :: replaceChars old new xs

/-- The call `strings.Index(s, sep)` for a separator of one code point. -/
def strings.Index (s : String) (sep : Char) : Int :=
  indexChars sep s.data

/-- The call `strings.LastIndex(s, sep)` for a separator of one code point. -/
def strings.LastIndex (s : String) (sep : Char) : Int :=
  lastIndexChars sep s.data

/-- The call `strings.Split(s, sep)` for a separator of one code point. -/
def strings.Split (s : String) (sep : Char) : List String :=
  (splitChars sep s.data).map String.mk

/-- The call `strings.Replace(s, old, new, -1)` for `old` and `new` of one code point. -/
def strings.Replace (s : String) (old new : Char) : String :=
  String.mk (replaceChars old new s.data)

/-- The slice `s[:hi]`. -/
def sliceTo (s : String) (hi : Int) : String :=
  String.mk (s.data.take hi.toNat)

/-- The slice `s[lo:]`. -/
def sliceFrom (s : String) (lo : Int) : String :=
  String.mk (s.data.drop lo.toNat)

/-! ## Stack frames -/

/-- The struct `StackFrame`. -/
structure StackFrame where
  File : String
  LineNumber : Int
  Name : String
  Package : String
  ProgramCounter : Nat
  deriving DecidableEq

/-- The zero value of `StackFrame`, with which `make` fills a slice. -/
def StackFrame.zero : StackFrame :=
  StackFrame.mk "" 0 "" "" 0

/-- The method `(*StackFrame).Func`. -/
def StackFrame.Func (rt : Runtime) (frame : StackFrame) : Option Func :=
  if frame.ProgramCounter = 0 then none
  else rt.FuncForPC frame.ProgramCounter

/-- The function `packageAndName`; the caller passes a non-nil `fn`. -/
def packageAndName (fn : Func) : String × String :=
  let name := fn.name
  let pkg := ""
  let lastslash := strings.LastIndex name '/'
  let pkg := if 0 ≤ lastslash then pkg ++ (sliceTo name lastslash ++ "/") else pkg
  let name := if 0 ≤ lastslash then sliceFrom name (lastslash + 1) else name
  let period := strings.Index name '.'
  let pkg := if 0 ≤ period then pkg ++ sliceTo name period else pkg
  let name := if 0 ≤ period then sliceFrom name (period + 1) else name
  let name := strings.Replace name '·' '.'
  (pkg, name)

/-- The function `NewStackFrame`. -/
def NewStackFrame (rt : Runtime) (pc : Nat) : StackFrame :=
  let frame := StackFrame.mk "" 0 "" "" pc
  match frame.Func rt with
  | none => frame
  | some fn =>
    let pn := packageAndName fn
    let fl := fn.fileLine (pc - 1)
    StackFrame.mk fl.1 fl.2 pn.2 pn.1 pc

/-! ## Errors -/

/-- A Go `error` value as this package sees it. -/
inductive error where
  | nil
  | foreign (text : String)
  | errorEx (err : error) (message : String) (stack : List Nat) (frames : List StackFrame)
  deriving DecidableEq

/-- The method `Error()` of an `error` value. -/
def error.Error : error → Except Panic String
  | .nil => .error .nilDereference
  | .foreign text => .ok text
  | .errorEx _ message _ _ => .ok message

/-- The buffer after `runtime.Callers(2, stack[:])` on `make([]uintptr, n)`. -/
def callersBuffer (rt : Runtime) (n : Nat) : List Nat :=
  rt.callers.take n ++ List.replicate (n - (rt.callers.take n).length) 0

/-- The number of entries `runtime.Callers(2, stack[:])` writes. -/
def callersLength (rt : Runtime) (n : Nat) : Nat :=
  (rt.callers.take n).length

/-- The loop `for i, pc := range stack { frames[i] = NewStackFrame(pc) }`. -/
def fillFrames (rt : Runtime) : List Nat → Nat → List StackFrame → List StackFrame
  | [], _, frames => frames
  | pc :: rest, i, frames => fillFrames rt rest (i + 1) (frames.set i (NewStackFrame rt pc))

/-- The message `New` computes from the wrapped error and the extra arguments. -/
def newMessage (rt : Runtime) (nested : error) (message : List Any) : Except Panic String :=
  let msg : Except Panic String :=
    match nested with
    | .nil => .ok "error"
    | e => e.Error
  let msg : Except Panic String :=
    match msg with
    | .error p => .error p
    | .ok m =>
      if message.length = 1 then
        match message with
        | Any.str s :: _ => .ok s
        | _ => .error .typeAssertion
      else .ok m
  match msg with
  | .error p => .error p
  | .ok m =>
    if message.length > 1 then
      match message with
      | Any.str s :: rest => .ok (rt.Sprintf s rest)
      | _ => .error .typeAssertion
    else .ok m

/-- The function `New`. -/
def New (rt : Runtime) (nested : error) (message : List Any) : Except Panic error :=
  match newMessage rt nested message with
  | .error p => .error p
  | .ok msg =>
    if rt.MaxStackDepth < 0 then .error .makeNegativeLen
    else
      let stack := callersBuffer rt rt.MaxStackDepth.toNat
      let length := callersLength rt rt.MaxStackDepth.toNat
      let frames := List.replicate stack.length StackFrame.zero
      let frames := fillFrames rt stack 0 frames
      .ok (error.errorEx nested msg (stack.take length) frames)

/-! ## Rendering -/

/-- The call `fmt.Sprintf("%s [%s:%d (%s)]", message, file, line, funcName)`. -/
def formatLine (message file : String) (line : Int) (funcName : String) : String :=
  message ++ " [" ++ file ++ ":" ++ decimal line ++ " (" ++ funcName ++ ")]"

/-- The function `ListStacks`. -/
def ListStacks (rt : Runtime) : error → Except Panic (List String)
  | .nil => .error .nilDereference
  | .foreign text => .ok ([] ++ [text])
  | .errorEx err message _ frames =>
    match frames with
    | [] => .error .indexOutOfRange
    | f0 :: _ =>
      let packageParts := strings.Split (Func.Name (f0.Func rt)) '/'
      match packageParts.getLast? with
      | none => .error .indexOutOfRange
      | some funcName =>
        let result := [] ++ [formatLine message f0.File f0.LineNumber funcName]
        match err with
        | .nil => .ok result
        | _ =>
          match ListStacks rt err with
          | .error p => .error p
          | .ok more => .ok (result ++ more)

/-- The inner loop of `Stack`: `n` times `stack += "\t"`. -/
def appendTabs (stack : String) : Nat → String
  | 0 => stack
  | n + 1 => appendTabs (stack ++ "\t") n

/-- The outer loop of `Stack` from index `i` on, over the remaining lines. -/
def stackLoop (stack : String) (i : Nat) : List String → String
  | [] => stack
  | line :: rest => stackLoop (appendTabs (stack ++ "\n") i ++ line) (i + 1) rest

/-- The function `Stack`; its local `stacks` is `lines` here. -/
def Stack (rt : Runtime) (err : error) : Except Panic String :=
  match ListStacks rt err with
  | .error p => .error p
  | .ok lines =>
    if lines.length = 0 then .ok ""
    else if lines.length = 1 then
      match lines[0]? with
      | some line => .ok line
      | none => .error .indexOutOfRange
    else .ok (stackLoop "" 0 lines)

/-! ## Source lines -/

/-- Errors of the file system and of reading a file. -/
inductive FsError where
  | notExist
  | permission
  | readFailure
  | tokenTooLong
  deriving DecidableEq

/-- What a `bufio.Scanner` delivers from an opened file: the lines its
successive `Scan` calls yield, and what `Err()` reports once `Scan` has
stopped, `none` at the end of the file. -/
structure File where
  lines : List String
  scanErr : Option FsError

/-- The file system: `os.Open` on a path. -/
structure FileSystem where
  Open : String → Except FsError File

/-- Leading code points of the cutset removed. -/
def trimLeft (cutset : List Char) : List Char → List Char
  | [] => []
  | x :: xs => if x ∈ cutset then trimLeft cutset xs else x :: xs

/-- Trailing code points of the cutset removed. -/
def trimRight (cutset : List Char) (s : List Char) : List Char :=
  (trimLeft cutset s.reverse).reverse

/-- The call `bytes.Trim(s, cutset)`. -/
def bytes.Trim (s : String) (cutset : String) : String :=
  String.mk (trimRight cutset.data (trimLeft cutset.data s.data))

/-- The loop `for scanner.Scan() { ... currentLine++ }` of `sourceLine`, over
the lines still to be scanned: the trimmed line on which it returns, or `none`
when `Scan` stops first. -/
def scanLoop (lineNumber : Int) : Int → List String → Option String
  | _, [] => none
  | currentLine, line :: rest =>
    if currentLine = lineNumber then some (bytes.Trim line " \t")
    else scanLoop lineNumber (currentLine + 1) rest

/-- The method `(*StackFrame).sourceLine`; the result is the pair of Go, with
`none` for a nil error. -/
def StackFrame.sourceLine (fs : FileSystem) (frame : StackFrame) : String × Option FsError :=
  if frame.LineNumber ≤ 0 then ("???", none)
  else
    match fs.Open frame.File with
    | .error err => ("", some err)
    | .ok file =>
      match scanLoop frame.LineNumber 1 file.lines with
      | some source => (source, none)
      | none =>
        match file.scanErr with
        | some err => ("", some err)
        | none => ("???", none)

/-- The method `(*StackFrame).SourceLine`. -/
def StackFrame.SourceLine (fs : FileSystem) (frame : StackFrame) : String × Option FsError :=
  let r := frame.sourceLine fs
  match r.2 with
  | some err => (r.1, some err)
  | none => (r.1, r.2)

/-- The constant `bufio.MaxScanTokenSize`, the size of the buffer of a
`bufio.Scanner` made by `bufio.NewScanner`. -/
def MaxScanTokenSize : Nat := 64 * 1024

/-- What a `bufio.Scanner` made by `bufio.NewScanner` delivers from a file that
holds the given lines, each ended by a newline, when the operating system reads
it without error: the lines in turn, until one does not fit the buffer with its
newline, where `Scan` stops and `Err()` reports `bufio.ErrTooLong`. -/
def scanFile : List String → File
  | [] => File.mk [] none
  | line :: rest =>
    if MaxScanTokenSize ≤ line.utf8ByteSize then File.mk [] (some FsError.tokenTooLong)
    else File.mk (line :: (scanFile rest).lines) (scanFile rest).scanErr

/-! ## Vocabulary of the statements -/

/-- The short function name `ListStacks` shows for a frame: the last piece of
the symbol of the frame, split at `/`. -/
def funcNameOf (rt : Runtime) (f0 : StackFrame) : String :=
  ((strings.Split (Func.Name (f0.Func rt)) '/').getLast?).getD ""

/-- The display line of a node with message `message` and innermost frame `f0`. -/
def nodeLine (rt : Runtime) (message : String) (f0 : StackFrame) : String :=
  formatLine message f0.File f0.LineNumber (funcNameOf rt f0)

/-- A chain of nodes of this package, each holding at least one frame, whose
last node wraps nothing. -/
def libChain : error → Bool
  | .nil => false
  | .foreign _ => false
  | .errorEx err _ _ frames => !frames.isEmpty && (err == error.nil || libChain err)

/-- The messages of the nodes of this package along a chain, outermost first. -/
def chainMessages : error → List String
  | .nil => []
  | .foreign _ => []
  | .errorEx err message _ _ => message :: chainMessages err

/-- A run of `i` tab characters. -/
def tabs (i : Nat) : String :=
  String.mk (List.replicate i '\t')

/-- The staircase of the lines from index `i` on: for each line a newline, as
many tabs as its index, and the line. -/
def staircaseFrom (i : Nat) : List String → String
  | [] => ""
  | line :: rest => "\n" ++ tabs i ++ line ++ staircaseFrom (i + 1) rest

/-- The field `stack` of a node (empty for other errors). -/
def stackOf : error → List Nat
  | .errorEx _ _ stack _ => stack
  | _ => []

/-- The field `frames` of a node (empty for other errors). -/
def framesOf : error → List StackFrame
  | .errorEx _ _ _ frames => frames
  | _ => []

/-- Every node of this package along the chain holds at least one frame. -/
def framed : error → Bool
  | .nil => true
  | .foreign _ => true
  | .errorEx err _ _ frames => !frames.isEmpty && framed err

/-! ## A sample environment

The call chain of `samplesrc/samples.go`, as the tests exercise it, and the
fragment of `fmt.Sprintf` the examples use. -/

/-- One verb of the fragment on one operand: `%d` on an `int`, `%s` on a
`string`, `%v` on either. -/
def formatVerb (verb : Char) (arg : Any) : Option String :=
  match arg with
  | Any.int n => if verb = 'd' ∨ verb = 'v' then some (decimal n) else none
  | Any.str s => if verb = 's' ∨ verb = 'v' then some s else none

/-- Formatting within the fragment; the flag says that a `%` was just read.
Outside the fragment (other verbs, flags, missing or extra operands) it is `none`. -/
def sprintfChars : Bool → List Char → List Any → Option (List Char)
  | false, [], [] => some []
  | false, [], _ :: _ => none
  | true, [], _ => none
  | false, c :: cs, args =>
    if c = '%' then sprintfChars true cs args
    else (sprintfChars false cs args).map (fun r => c :: r)
  | true, v :: cs, args =>
    if v = '%' then (sprintfChars false cs args).map (fun r => '%' :: r)
    else
      match args with
      | [] => none
      | a :: rest =>
        match formatVerb v a, sprintfChars false cs rest with
        | some s, some r => some (s.data ++ r)
        | _, _ => none

/-- The fragment of `fmt.Sprintf` with the verbs `%d`, `%s`, `%v` and `%%`;
the empty string stands in for every call outside the fragment. -/
def sampleSprintf (format : String) (args : List Any) : String :=
  match sprintfChars false format.data args with
  | some r => String.mk r
  | none => ""

/-- The source file of the sample call chain. -/
def samplesFile : String := "/go/src/github.com/madhanganesh/goerr/samplesrc/samples.go"

/-- The symbol table of the sample program: three functions of `samplesrc`
and the test function that calls them. -/
def sampleFuncForPC (pc : Nat) : Option Func :=
  if pc = 4096 then
    some (Func.mk "github.com/madhanganesh/goerr/samplesrc.Controller" (fun _ => (samplesFile, 11)))
  else if pc = 4352 then
    some (Func.mk "github.com/madhanganesh/goerr/samplesrc.Service" (fun _ => (samplesFile, 19)))
  else if pc = 4608 then
    some (Func.mk "github.com/madhanganesh/goerr/samplesrc.Repository" (fun _ => (samplesFile, 26)))
  else if pc = 8192 then
    some (Func.mk "github.com/madhanganesh/goerr_test.TestStack" (fun _ => ("/go/src/github.com/madhanganesh/goerr/goerr_test.go", 63)))
  else none

/-- The sample program stopped at a call of `New`, seen from that call. -/
def sampleRuntime (maxStackDepth : Int) (callers : List Nat) : Runtime :=
  Runtime.mk maxStackDepth callers sampleFuncForPC sampleSprintf

/-- The error `samplesrc.Repository()` returns. -/
def sampleRepository (maxStackDepth : Int) : Except Panic error :=
  New (sampleRuntime maxStackDepth [4608, 4352, 4096, 8192]) error.nil [Any.str "error from database"]

/-- The error `samplesrc.Service()` returns. -/
def sampleService (maxStackDepth : Int) : Except Panic error :=
  match sampleRepository maxStackDepth with
  | .error p => .error p
  | .ok err =>
    New (sampleRuntime maxStackDepth [4352, 4096, 8192]) err [Any.str "service failed"]

/-- The error `samplesrc.Controller()` returns. -/
def sampleController (maxStackDepth : Int) : Except Panic error :=
  match sampleService maxStackDepth with
  | .error p => .error p
  | .ok err =>
    New (sampleRuntime maxStackDepth [4096, 8192]) err [Any.str "controller failed"]

/-- The chain `samplesrc.Controller()` returns under the default configuration. -/
def sampleChain : error :=
  match sampleController 50 with
  | .ok err => err
  | .error _ => error.nil


/-- The three lines `ListStacks` gives for the sample chain. -/
def sampleLines : List String :=
  ["controller failed [/go/src/github.com/madhanganesh/goerr/samplesrc/samples.go:11 (samplesrc.Controller)]",
   "service failed [/go/src/github.com/madhanganesh/goerr/samplesrc/samples.go:19 (samplesrc.Service)]",
   "error from database [/go/src/github.com/madhanganesh/goerr/samplesrc/samples.go:26 (samplesrc.Repository)]"]

/-- The root cause alone, as `samplesrc.Repository()` returns it when
`MaxStackDepth` is `maxStackDepth`. -/
def sampleRoot (maxStackDepth : Int) : error :=
  match sampleRepository maxStackDepth with
  | .ok err => err
  | .error _ => error.nil

/-- The lines of `samplesrc/samples.go`. -/
def samplesLines : List String :=
  ["package samplesrc",
   "",
   "import (",
   "\t\"errors\"",
   "\t\"github.com/madhanganesh/goerr\"",
   ")",
   "",
   "func Controller() error \x7b",
   "\terr := Service()",
   "\tif err != nil \x7b",
   "\t\treturn goerr.New(err, \"controller failed\")",
   "\t\x7d",
   "\treturn nil",
   "\x7d",
   "",
   "func Service() error \x7b",
   "\terr := Repository()",
   "\tif err != nil \x7b",
   "\t\treturn goerr.New(err, \"service failed\")",
   "\t\x7d",
   "\treturn err",
   "\x7d",
   "",
   "func Repository() error \x7b",
   "\terr := errors.New(\"error from database\")",
   "\treturn goerr.New(nil, err.Error())",
   "\x7d"]

/-- A file system that holds `samplesrc/samples.go` and nothing else. -/
def sampleFs : FileSystem :=
  FileSystem.mk (fun path =>
    if path = samplesFile then .ok (File.mk samplesLines none) else .error FsError.notExist)

/-- A line of `MaxScanTokenSize` bytes. -/
def longLine : String :=
  String.mk (List.replicate MaxScanTokenSize 'x')

/-- The lines of a source file whose first line is `longLine`. -/
def longLines : List String :=
  [longLine, "\treturn nil"]

/-- A file system that holds the file of `longLines` and nothing else. -/
def longFs : FileSystem :=
  FileSystem.mk (fun path =>
    if path = "/go/src/long.go" then .ok (scanFile longLines) else .error FsError.notExist)

/-! ## Splitting at a separator -/

/-- The pieces `splitChars` returns end in a piece without the separator, and
the input is that piece alone or a text, the separator and that piece. -/
theorem splitChars_last (sep : Char) (s : List Char) :
    ∃ init seg, splitChars sep s = init ++ [seg] ∧ sep ∉ seg ∧
      (init = [] → s = seg) ∧ (init ≠ [] → ∃ p, s = p ++ sep :: seg) := by
  induction s with
  | nil => exact ⟨[], [], by simp [splitChars]⟩
  | cons x xs ih =>
    obtain ⟨init, seg, hsplit, hseg, hone, hmore⟩ := ih
    by_cases hx : x = sep
    · refine ⟨[] :: init, seg, by simp [splitChars, hx, hsplit], hseg, by simp, ?_⟩
      intro _
      by_cases hinit : init = []
      · exact ⟨[], by simp [hx, hone hinit]⟩
      · obtain ⟨p, hp⟩ := hmore hinit
        exact ⟨sep :: p, by simp [hx, hp]⟩
    · cases init with
      | nil =>
        refine ⟨[], x :: seg, by simp [splitChars, hx, hsplit], ?_, by simp [hone rfl], by simp⟩
        simp only [List.mem_cons, not_or]
        exact ⟨fun h => hx h.symm, hseg⟩
      | cons q qs =>
        refine ⟨(x :: q) :: qs, seg, by simp [splitChars, hx, hsplit], hseg, by simp, ?_⟩
        intro _
        obtain ⟨p, hp⟩ := hmore (by simp)
        exact ⟨x :: p, by simp [hp]⟩

/-- The function `strings.Split` returns at least one piece, and its last piece is
free of the separator and ends the input, after a separator unless it is the
whole input. -/
theorem Split_getLast (s : String) (sep : Char) :
    ∃ seg : String, (strings.Split s sep).getLast? = some seg ∧ sep ∉ seg.data ∧
      (s = seg ∨ ∃ p : String, s = p ++ String.singleton sep ++ seg) := by
  obtain ⟨init, seg, hsplit, hseg, hone, hmore⟩ := splitChars_last sep s.data
  refine ⟨String.mk seg, by simp [strings.Split, hsplit], hseg, ?_⟩
  by_cases hinit : init = []
  · left
    exact String.ext (hone hinit)
  · right
    obtain ⟨p, hp⟩ := hmore hinit
    refine ⟨String.mk p, String.ext ?_⟩
    simp [hp, String.singleton]


/-! ## Listing a chain -/

/-- What `ListStacks` does at a node that holds a frame: its own line, then the
lines of the wrapped error if there is one. -/
theorem ListStacks_node (rt : Runtime) (err : error) (message : String) (stack : List Nat)
    (f0 : StackFrame) (frames : List StackFrame) :
    ListStacks rt (error.errorEx err message stack (f0 :: frames)) =
      if err = error.nil then .ok [nodeLine rt message f0]
      else
        match ListStacks rt err with
        | .error p => .error p
        | .ok more => .ok (nodeLine rt message f0 :: more) := by
  obtain ⟨seg, hlast, _, _⟩ := Split_getLast (Func.Name (f0.Func rt)) '/'
  cases err <;> simp [ListStacks, nodeLine, funcNameOf, hlast]

/-- A display line begins with the message of its node. -/
theorem message_prefix_nodeLine (rt : Runtime) (message : String) (f0 : StackFrame) :
    message.data <+: (nodeLine rt message f0).data := by
  simp [nodeLine, formatLine, String.data_append, List.append_assoc]

/-- Claim C1: for a chain of n >= 1 nodes of this package, each with at least one
frame and the last wrapping nothing, `ListStacks` returns exactly n lines, and
the line at index i begins with the message of the i-th node from the outside. -/
theorem ListStacks_chain_lines (rt : Runtime) (e : error) (h : libChain e = true) :
    ∃ lines, ListStacks rt e = .ok lines ∧
      lines.length = (chainMessages e).length ∧ 1 ≤ lines.length ∧
      ∀ (i : Nat) (m : String), (chainMessages e)[i]? = some m →
        ∃ line : String, lines[i]? = some line ∧ m.data <+: line.data := by
  induction e with
  | nil => simp [libChain] at h
  | foreign text => simp [libChain] at h
  | errorEx err message stack frames ih =>
    cases frames with
    | nil => simp [libChain] at h
    | cons f0 frames =>
      rw [ListStacks_node]
      by_cases herr : err = error.nil
      · subst herr
        refine ⟨[nodeLine rt message f0], by simp, by simp [chainMessages], by simp, ?_⟩
        intro i m hm
        cases i with
        | zero =>
          simp [chainMessages] at hm
          subst hm
          exact ⟨nodeLine rt message f0, by simp, message_prefix_nodeLine rt message f0⟩
        | succ i => simp [chainMessages] at hm
      · have hchain : libChain err = true := by
          simpa [libChain, herr] using h
        obtain ⟨more, hmore, hlen, _, hidx⟩ := ih hchain
        refine ⟨nodeLine rt message f0 :: more, by simp [herr, hmore],
          by simp [chainMessages, hlen], by simp, ?_⟩
        intro i m hm
        cases i with
        | zero =>
          simp [chainMessages] at hm
          subst hm
          exact ⟨nodeLine rt message f0, by simp, message_prefix_nodeLine rt message f0⟩
        | succ i =>
          simp [chainMessages] at hm
          simpa using hidx i m hm

/-- Witness of `ListStacks_chain_lines`: the three-node sample chain. -/
theorem ListStacks_chain_lines_witness :
    libChain sampleChain = true ∧
    ∃ lines, ListStacks (sampleRuntime 50 []) sampleChain = .ok lines ∧
      lines.length = (chainMessages sampleChain).length ∧ 1 ≤ lines.length ∧
      ∀ (i : Nat) (m : String), (chainMessages sampleChain)[i]? = some m →
        ∃ line : String, lines[i]? = some line ∧ m.data <+: line.data :=
  ⟨by decide, ListStacks_chain_lines (sampleRuntime 50 []) sampleChain (by decide)⟩

/-- Claim C2: the line `ListStacks` emits for a node with message m whose
innermost frame has file F, line L and symbol Q is m, then " [", F, ":", the
decimal digits of L, " (", S and ")]", where S is the last piece of Q between
slashes: S holds no slash and Q is S or ends in a slash followed by S.  For the
symbol of `samplesrc.Controller` that piece is "samplesrc.Controller". -/
theorem ListStacks_line_format (rt : Runtime) (err : error) (m : String) (stack : List Nat)
    (f0 : StackFrame) (frames : List StackFrame) :
    (∃ S : String, '/' ∉ S.data ∧
      (Func.Name (f0.Func rt) = S ∨ ∃ p : String, Func.Name (f0.Func rt) = p ++ "/" ++ S) ∧
      ListStacks rt (error.errorEx err m stack (f0 :: frames)) =
        if err = error.nil then
          .ok [m ++ " [" ++ f0.File ++ ":" ++ decimal f0.LineNumber ++ " (" ++ S ++ ")]"]
        else
          match ListStacks rt err with
          | .error p => .error p
          | .ok more =>
            .ok ((m ++ " [" ++ f0.File ++ ":" ++ decimal f0.LineNumber ++ " (" ++ S ++ ")]") :: more)) ∧
    funcNameOf (sampleRuntime 50 []) (NewStackFrame (sampleRuntime 50 []) 4096) =
      "samplesrc.Controller" := by
  refine ⟨?_, by decide⟩
  obtain ⟨seg, hlast, hseg, hshape⟩ := Split_getLast (Func.Name (f0.Func rt)) '/'
  refine ⟨seg, hseg, hshape, ?_⟩
  rw [ListStacks_node]
  simp [nodeLine, funcNameOf, hlast, formatLine]

/-! ## Rendering a chain -/

/-- The inner loop of `Stack` appends a run of tabs. -/
theorem appendTabs_eq (stack : String) (n : Nat) : appendTabs stack n = stack ++ tabs n := by
  induction n generalizing stack with
  | zero => exact String.ext (by simp [appendTabs, tabs])
  | succ n ih =>
    rw [appendTabs, ih]
    exact String.ext (by simp [tabs, List.replicate_succ])

/-- The outer loop of `Stack` appends the staircase of the lines it is given. -/
theorem stackLoop_eq (stack : String) (i : Nat) (lines : List String) :
    stackLoop stack i lines = stack ++ staircaseFrom i lines := by
  induction lines generalizing stack i with
  | nil => exact String.ext (by simp [stackLoop, staircaseFrom])
  | cons line rest ih =>
    rw [stackLoop, ih, appendTabs_eq]
    exact String.ext (by simp [staircaseFrom, String.data_append, List.append_assoc])

/-- Claim C3: when `ListStacks` gives k >= 2 lines, `Stack` returns the
concatenation, for i from 0 to k-1 in order, of a newline, i tabs and line i;
the result starts with a newline, line 0 follows it directly, line 1 follows a
newline and one tab, and the later lines continue the staircase from two tabs. -/
theorem Stack_staircase (rt : Runtime) (e : error) (lines : List String)
    (hlist : ListStacks rt e = .ok lines) (hk : 2 ≤ lines.length) :
    Stack rt e = .ok (staircaseFrom 0 lines) ∧
    ∃ l0 l1 rest, lines = l0 :: l1 :: rest ∧
      staircaseFrom 0 lines = "\n" ++ (l0 ++ ("\n\t" ++ (l1 ++ staircaseFrom 2 rest))) := by
  constructor
  · have h0 : lines.length ≠ 0 := by omega
    have h1 : lines.length ≠ 1 := by omega
    simp only [Stack, hlist, h0, h1, if_false]
    rw [stackLoop_eq]
    exact congrArg Except.ok (String.ext (by simp))
  · match lines, hk with
    | l0 :: l1 :: rest, _ =>
      refine ⟨l0, l1, rest, rfl, String.ext ?_⟩
      simp [staircaseFrom, tabs, String.data_append, List.append_assoc]

/-- The three lines of the sample chain. -/
theorem ListStacks_sampleChain :
    ListStacks (sampleRuntime 50 []) sampleChain = .ok sampleLines := by
  rfl

set_option maxRecDepth 20000 in
/-- The rendering of the sample chain, as `TestStack` expects it. -/
theorem Stack_sampleChain :
    Stack (sampleRuntime 50 []) sampleChain = .ok
      ("\ncontroller failed [/go/src/github.com/madhanganesh/goerr/samplesrc/samples.go:11 (samplesrc.Controller)]" ++
       "\n\tservice failed [/go/src/github.com/madhanganesh/goerr/samplesrc/samples.go:19 (samplesrc.Service)]" ++
       "\n\t\terror from database [/go/src/github.com/madhanganesh/goerr/samplesrc/samples.go:26 (samplesrc.Repository)]") := by
  rfl

/-- Witness of `Stack_staircase`: the three-node sample chain. -/
theorem Stack_staircase_witness :
    ListStacks (sampleRuntime 50 []) sampleChain = .ok sampleLines ∧
    2 ≤ sampleLines.length ∧
    Stack (sampleRuntime 50 []) sampleChain = .ok (staircaseFrom 0 sampleLines) ∧
    ∃ l0 l1 rest, sampleLines = l0 :: l1 :: rest ∧
      staircaseFrom 0 sampleLines = "\n" ++ (l0 ++ ("\n\t" ++ (l1 ++ staircaseFrom 2 rest))) :=
  ⟨ListStacks_sampleChain, by decide,
    Stack_staircase (sampleRuntime 50 []) sampleChain sampleLines ListStacks_sampleChain (by decide)⟩

/-- A node of this package that wraps nothing and holds a frame: `Stack`
returns exactly the one display line `ListStacks` produces for it, with no
newline and no indentation added. -/
theorem Stack_single_node (rt : Runtime) (m : String) (stack : List Nat)
    (frames : List StackFrame) (hframes : frames ≠ []) :
    ∃ f0, frames.head? = some f0 ∧
      ListStacks rt (error.errorEx error.nil m stack frames) = .ok [nodeLine rt m f0] ∧
      Stack rt (error.errorEx error.nil m stack frames) = .ok (nodeLine rt m f0) := by
  cases frames with
  | nil => exact absurd rfl hframes
  | cons f0 frames =>
    have hlist : ListStacks rt (error.errorEx error.nil m stack (f0 :: frames)) =
        .ok [nodeLine rt m f0] := by
      rw [ListStacks_node]
      simp
    exact ⟨f0, rfl, hlist, by simp [Stack, hlist]⟩

/-- The lemma `Stack_single_node` on the root cause of the sample chain. -/
theorem Stack_single_node_witness :
    framesOf (sampleRoot 50) ≠ [] ∧
    ∃ f0, (framesOf (sampleRoot 50)).head? = some f0 ∧
      ListStacks (sampleRuntime 50 [])
          (error.errorEx error.nil "error from database" (stackOf (sampleRoot 50))
            (framesOf (sampleRoot 50))) =
        .ok [nodeLine (sampleRuntime 50 []) "error from database" f0] ∧
      Stack (sampleRuntime 50 [])
          (error.errorEx error.nil "error from database" (stackOf (sampleRoot 50))
            (framesOf (sampleRoot 50))) =
        .ok (nodeLine (sampleRuntime 50 []) "error from database" f0) :=
  ⟨by decide,
    Stack_single_node (sampleRuntime 50 []) "error from database" (stackOf (sampleRoot 50))
      (framesOf (sampleRoot 50)) (by decide)⟩

/-- Claim C5: for a non-nil error that is not of this package, `ListStacks`
returns the one-element sequence of its `Error()` text and `Stack` returns that
text unchanged. -/
theorem foreign_error_text (rt : Runtime) (text : String) :
    (error.foreign text).Error = .ok text ∧
    ListStacks rt (error.foreign text) = .ok [text] ∧
    Stack rt (error.foreign text) = .ok text := by
  refine ⟨rfl, by simp [ListStacks], by simp [Stack, ListStacks]⟩

/-! ## Building a node -/

/-- The loop that resolves the frames keeps the length of the slice it fills. -/
theorem fillFrames_length (rt : Runtime) (pcs : List Nat) (i : Nat) (frames : List StackFrame) :
    (fillFrames rt pcs i frames).length = frames.length := by
  induction pcs generalizing i frames with
  | nil => rfl
  | cons pc rest ih => simp [fillFrames, ih]

/-- The buffer `New` allocates has `MaxStackDepth` entries. -/
theorem callersBuffer_length (rt : Runtime) (n : Nat) : (callersBuffer rt n).length = n := by
  simp only [callersBuffer, List.length_append, List.length_replicate, List.length_take]
  omega

/-- With a non-negative `MaxStackDepth`, `New` returns a node as soon as its
message is computed; the node wraps `nested` and carries that message. -/
theorem New_of_message (rt : Runtime) (nested : error) (message : List Any) (msg : String)
    (hdepth : 0 ≤ rt.MaxStackDepth) (hmsg : newMessage rt nested message = .ok msg) :
    ∃ stack frames, New rt nested message = .ok (error.errorEx nested msg stack frames) ∧
      stack.length = min rt.callers.length rt.MaxStackDepth.toNat ∧
      frames.length = rt.MaxStackDepth.toNat := by
  have hneg : ¬ rt.MaxStackDepth < 0 := by omega
  refine ⟨(callersBuffer rt rt.MaxStackDepth.toNat).take (callersLength rt rt.MaxStackDepth.toNat),
    fillFrames rt (callersBuffer rt rt.MaxStackDepth.toNat) 0
      (List.replicate (callersBuffer rt rt.MaxStackDepth.toNat).length StackFrame.zero),
    by simp only [New, hmsg, hneg, if_false], ?_, ?_⟩
  · simp only [callersLength, List.length_take, callersBuffer_length]
    omega
  · simp [fillFrames_length, callersBuffer_length]

/-- A node `New` returns holds `MaxStackDepth` resolved frames and as many raw
addresses as the call stack has, up to `MaxStackDepth`. -/
theorem New_lengths (rt : Runtime) (nested : error) (message : List Any) (e : error)
    (hnew : New rt nested message = .ok e) :
    (framesOf e).length = rt.MaxStackDepth.toNat ∧
    (stackOf e).length = min rt.callers.length rt.MaxStackDepth.toNat := by
  cases hmsg : newMessage rt nested message with
  | error p => simp [New, hmsg] at hnew
  | ok msg =>
    by_cases hneg : rt.MaxStackDepth < 0
    · simp [New, hmsg, hneg] at hnew
    · obtain ⟨stack, frames, hok, hstack, hframes⟩ :=
        New_of_message rt nested message msg (by omega) hmsg
      rw [hok] at hnew
      cases hnew
      exact ⟨hframes, hstack⟩

/-- Claim C6: with exactly one extra argument, a string s, the error `New`
returns has `Error()` equal to s, whatever the wrapped error and whatever s
contains; `fmt.Sprintf` is not consulted. -/
theorem New_one_argument (rt : Runtime) (w : error) (s : String)
    (hdepth : 0 ≤ rt.MaxStackDepth) :
    ∃ e, New rt w [Any.str s] = .ok e ∧ e.Error = .ok s := by
  have hmsg : newMessage rt w [Any.str s] = .ok s := by
    cases w <;> simp [newMessage, error.Error]
  obtain ⟨stack, frames, hok, _, _⟩ := New_of_message rt w [Any.str s] s hdepth hmsg
  exact ⟨_, hok, rfl⟩

/-- Witness of `New_one_argument`: a message with a verb in it, around the
sample chain. -/
theorem New_one_argument_witness :
    0 ≤ (sampleRuntime 50 [8192]).MaxStackDepth ∧
    ∃ e, New (sampleRuntime 50 [8192]) sampleChain [Any.str "100%d done"] = .ok e ∧
      e.Error = .ok "100%d done" :=
  ⟨by decide, New_one_argument (sampleRuntime 50 [8192]) sampleChain "100%d done" (by decide)⟩

/-- Claim C7: with no extra argument, the error `New` returns has `Error()`
equal to "error" when nothing is wrapped, and equal to the `Error()` text of the
wrapped error otherwise. -/
theorem New_no_argument (rt : Runtime) (hdepth : 0 ≤ rt.MaxStackDepth) :
    (∃ e, New rt error.nil [] = .ok e ∧ e.Error = .ok "error") ∧
    ∀ w, w ≠ error.nil →
      ∃ e text, New rt w [] = .ok e ∧ w.Error = .ok text ∧ e.Error = .ok text := by
  constructor
  · obtain ⟨stack, frames, hok, _, _⟩ :=
      New_of_message rt error.nil [] "error" hdepth (by simp [newMessage])
    exact ⟨_, hok, rfl⟩
  · intro w hw
    cases w with
    | nil => exact absurd rfl hw
    | foreign text =>
      obtain ⟨stack, frames, hok, _, _⟩ :=
        New_of_message rt (error.foreign text) [] text hdepth (by simp [newMessage, error.Error])
      exact ⟨_, text, hok, rfl, rfl⟩
    | errorEx err m st fr =>
      obtain ⟨stack, frames, hok, _, _⟩ :=
        New_of_message rt (error.errorEx err m st fr) [] m hdepth
          (by simp [newMessage, error.Error])
      exact ⟨_, m, hok, rfl, rfl⟩

/-- Witness of `New_no_argument`: the sample program under the default depth. -/
theorem New_no_argument_witness :
    0 ≤ (sampleRuntime 50 [8192]).MaxStackDepth ∧
    (∃ e, New (sampleRuntime 50 [8192]) error.nil [] = .ok e ∧ e.Error = .ok "error") ∧
    ∀ w, w ≠ error.nil →
      ∃ e text, New (sampleRuntime 50 [8192]) w [] = .ok e ∧ w.Error = .ok text ∧
        e.Error = .ok text :=
  ⟨by decide, New_no_argument (sampleRuntime 50 [8192]) (by decide)⟩

/-- Claim C8: with more than one extra argument, the first a string template t,
the error `New` returns has `Error()` equal to `fmt.Sprintf` of t and the
remaining arguments, whatever the wrapped error; so `New(nil, "fmt %d", 5)`
has `Error()` equal to "fmt 5", as `fmt.Sprintf` formats it so. -/
theorem New_format_arguments (rt : Runtime) (w : error) (t : String) (a : Any) (rest : List Any)
    (hdepth : 0 ≤ rt.MaxStackDepth) :
    (∃ e, New rt w (Any.str t :: a :: rest) = .ok e ∧ e.Error = .ok (rt.Sprintf t (a :: rest))) ∧
    (rt.Sprintf "fmt %d" [Any.int 5] = "fmt 5" →
      ∃ e, New rt error.nil [Any.str "fmt %d", Any.int 5] = .ok e ∧ e.Error = .ok "fmt 5") := by
  have hmsg : ∀ (w : error) (t : String) (a : Any) (rest : List Any),
      newMessage rt w (Any.str t :: a :: rest) = .ok (rt.Sprintf t (a :: rest)) := by
    intro w t a rest
    cases w <;> simp [newMessage, error.Error]
  constructor
  · obtain ⟨stack, frames, hok, _, _⟩ := New_of_message rt w _ _ hdepth (hmsg w t a rest)
    exact ⟨_, hok, rfl⟩
  · intro hfmt
    obtain ⟨stack, frames, hok, _, _⟩ :=
      New_of_message rt error.nil _ _ hdepth (hmsg error.nil "fmt %d" (Any.int 5) [])
    exact ⟨_, hok, by simp [error.Error, hfmt]⟩

/-- Witness of `New_format_arguments`: the template "fmt %d" and the operand 5
in the sample program, whose `Sprintf` gives "fmt 5". -/
theorem New_format_arguments_witness :
    0 ≤ (sampleRuntime 50 [8192]).MaxStackDepth ∧
    (sampleRuntime 50 [8192]).Sprintf "fmt %d" [Any.int 5] = "fmt 5" ∧
    (∃ e, New (sampleRuntime 50 [8192]) (error.foreign "cause") [Any.str "fmt %d", Any.int 5] = .ok e ∧
      e.Error = .ok ((sampleRuntime 50 [8192]).Sprintf "fmt %d" [Any.int 5])) ∧
    ∃ e, New (sampleRuntime 50 [8192]) error.nil [Any.str "fmt %d", Any.int 5] = .ok e ∧
      e.Error = .ok "fmt 5" :=
  ⟨by decide, by decide,
    (New_format_arguments (sampleRuntime 50 [8192]) (error.foreign "cause") "fmt %d" (Any.int 5) []
      (by decide)).1,
    (New_format_arguments (sampleRuntime 50 [8192]) (error.foreign "cause") "fmt %d" (Any.int 5) []
      (by decide)).2 (by decide)⟩

/-! ## Frames and raw addresses of a node -/

/-- Claim C9, evaluated: under the default `MaxStackDepth` of 50, a `New` called
four calls deep stores 4 raw addresses and 50 resolved frames, so the two
lengths differ. -/
theorem New_frames_exceed_stack :
    New (sampleRuntime 50 [4608, 4352, 4096, 8192]) error.nil [Any.str "error from database"] =
      .ok (sampleRoot 50) ∧
    stackOf (sampleRoot 50) = [4608, 4352, 4096, 8192] ∧
    (stackOf (sampleRoot 50)).length = 4 ∧
    (framesOf (sampleRoot 50)).length = 50 ∧
    (framesOf (sampleRoot 50))[4]? = some StackFrame.zero := by
  refine ⟨rfl, by decide, by decide, by decide, by decide⟩

/-- The two lengths of a node `New` returns agree exactly when the call stack is
at least `MaxStackDepth` deep. -/
theorem New_lengths_agree_iff (rt : Runtime) (nested : error) (message : List Any) (e : error)
    (hnew : New rt nested message = .ok e) :
    (framesOf e).length = (stackOf e).length ↔ rt.MaxStackDepth.toNat ≤ rt.callers.length := by
  obtain ⟨hframes, hstack⟩ := New_lengths rt nested message e hnew
  rw [hframes, hstack]
  omega

/-! ## Normal return -/

/-- On a non-nil error whose nodes each hold a frame, `ListStacks` returns, and
returns at least one line. -/
theorem ListStacks_returns_of_framed (rt : Runtime) (e : error) (hnil : e ≠ error.nil)
    (hframed : framed e = true) :
    ∃ lines, ListStacks rt e = .ok lines ∧ lines ≠ [] := by
  induction e with
  | nil => exact absurd rfl hnil
  | foreign text => exact ⟨[text], by simp [ListStacks], by simp⟩
  | errorEx err message stack frames ih =>
    cases frames with
    | nil => simp [framed] at hframed
    | cons f0 frames =>
      rw [ListStacks_node]
      by_cases herr : err = error.nil
      · exact ⟨[nodeLine rt message f0], by simp [herr], by simp⟩
      · obtain ⟨more, hmore, _⟩ := ih herr (by simpa [framed] using hframed)
        exact ⟨nodeLine rt message f0 :: more, by simp [herr, hmore], by simp⟩

/-- On a non-nil error whose nodes each hold a frame, `Stack` returns. -/
theorem Stack_returns_of_framed (rt : Runtime) (e : error) (hnil : e ≠ error.nil)
    (hframed : framed e = true) :
    ∃ text, Stack rt e = .ok text := by
  obtain ⟨lines, hlines, hne⟩ := ListStacks_returns_of_framed rt e hnil hframed
  match lines, hne with
  | [line], _ => exact ⟨line, by simp [Stack, hlines]⟩
  | l0 :: l1 :: rest, _ =>
    exact ⟨stackLoop "" 0 (l0 :: l1 :: rest), by simp [Stack, hlines]⟩

/-- With a positive `MaxStackDepth`, the node `New` returns holds a frame, and
so does every node below it if that held of the wrapped error. -/
theorem New_framed (rt : Runtime) (nested : error) (message : List Any) (e : error)
    (hnew : New rt nested message = .ok e) (hdepth : 0 < rt.MaxStackDepth)
    (hnested : framed nested = true) :
    framed e = true ∧ e ≠ error.nil := by
  cases hmsg : newMessage rt nested message with
  | error p => simp [New, hmsg] at hnew
  | ok msg =>
    obtain ⟨stack, frames, hok, _, hframes⟩ :=
      New_of_message rt nested message msg (by omega) hmsg
    rw [hok] at hnew
    cases hnew
    have hne : frames ≠ [] := by
      intro h
      rw [h] at hframes
      simp at hframes
      omega
    cases frames with
    | nil => exact absurd rfl hne
    | cons f0 frames => exact ⟨by simp [framed, hnested], by simp⟩

/-- Claim C10, evaluated: with `MaxStackDepth` set to 0, `New` returns a node
without frames, and both `ListStacks` and `Stack` abort on it with an index out
of range. -/
theorem ListStacks_aborts_at_depth_zero :
    New (sampleRuntime 0 [4608, 4352, 4096, 8192]) error.nil [Any.str "error from database"] =
      .ok (error.errorEx error.nil "error from database" [] []) ∧
    ListStacks (sampleRuntime 0 []) (error.errorEx error.nil "error from database" [] []) =
      .error Panic.indexOutOfRange ∧
    Stack (sampleRuntime 0 []) (error.errorEx error.nil "error from database" [] []) =
      .error Panic.indexOutOfRange := by
  refine ⟨rfl, rfl, rfl⟩

/-! ## A single node -/

/-- Claim C11, refuted on the root cause of the sample chain: `Stack` returns
its display line, which is not its bare message. -/
theorem Stack_single_node_not_bare_message :
    Stack (sampleRuntime 50 []) (sampleRoot 50) = .ok
      "error from database [/go/src/github.com/madhanganesh/goerr/samplesrc/samples.go:26 (samplesrc.Repository)]" ∧
    (sampleRoot 50).Error = .ok "error from database" ∧
    Stack (sampleRuntime 50 []) (sampleRoot 50) ≠ (sampleRoot 50).Error := by
  have hstack : Stack (sampleRuntime 50 []) (sampleRoot 50) = .ok
      "error from database [/go/src/github.com/madhanganesh/goerr/samplesrc/samples.go:26 (samplesrc.Repository)]" := rfl
  have herror : (sampleRoot 50).Error = .ok "error from database" := rfl
  refine ⟨hstack, herror, ?_⟩
  rw [hstack, herror]
  intro h
  injection h with h
  exact absurd h (by decide)

/-- Claim C11, amended: for a node of this package with message m that wraps
nothing and holds a frame, `Stack` returns the display line of the node, that
is m followed by the bracketed file, line and short function name of its
innermost frame; `Error()` is m, so the two never agree. -/
theorem Stack_single_node_line (rt : Runtime) (m : String) (stack : List Nat)
    (f0 : StackFrame) (frames : List StackFrame) :
    (error.errorEx error.nil m stack (f0 :: frames)).Error = .ok m ∧
    Stack rt (error.errorEx error.nil m stack (f0 :: frames)) =
      .ok (m ++ " [" ++ f0.File ++ ":" ++ decimal f0.LineNumber ++ " (" ++ funcNameOf rt f0 ++ ")]") ∧
    Stack rt (error.errorEx error.nil m stack (f0 :: frames)) ≠
      (error.errorEx error.nil m stack (f0 :: frames)).Error := by
  have hlist : ListStacks rt (error.errorEx error.nil m stack (f0 :: frames)) =
      .ok [nodeLine rt m f0] := by
    rw [ListStacks_node]
    simp
  have hstack : Stack rt (error.errorEx error.nil m stack (f0 :: frames)) =
      .ok (nodeLine rt m f0) := by
    simp [Stack, hlist]
  refine ⟨rfl, by rw [hstack]; rfl, ?_⟩
  rw [hstack]
  intro h
  injection h with h
  have hdata := congrArg String.data h
  simp [nodeLine, formatLine, String.data_append, List.append_assoc] at hdata

/-! ## Unresolved frames -/

/-- Claim C12: for an address that resolves to no function, address 0 included,
`NewStackFrame` returns a frame that keeps the address as `ProgramCounter` and
has empty `File`, `Name` and `Package` and `LineNumber` 0. -/
theorem NewStackFrame_unresolved (rt : Runtime) (pc : Nat)
    (hnone : pc = 0 ∨ rt.FuncForPC pc = none) :
    (StackFrame.mk "" 0 "" "" pc).Func rt = none ∧
    NewStackFrame rt pc = StackFrame.mk "" 0 "" "" pc ∧
    (NewStackFrame rt pc).ProgramCounter = pc ∧
    (NewStackFrame rt pc).File = "" ∧ (NewStackFrame rt pc).Name = "" ∧
    (NewStackFrame rt pc).Package = "" ∧ (NewStackFrame rt pc).LineNumber = 0 ∧
    (NewStackFrame rt pc).LineNumber ≤ 0 := by
  have hfunc : (StackFrame.mk "" 0 "" "" pc).Func rt = none := by
    rcases hnone with h | h
    · simp [StackFrame.Func, h]
    · simp [StackFrame.Func, h]
  have hframe : NewStackFrame rt pc = StackFrame.mk "" 0 "" "" pc := by
    simp [NewStackFrame, hfunc]
  refine ⟨hfunc, hframe, ?_⟩
  rw [hframe]
  simp

/-- Witness of `NewStackFrame_unresolved`: an address outside the symbol table
of the sample program. -/
theorem NewStackFrame_unresolved_witness :
    (12345 = 0 ∨ (sampleRuntime 50 []).FuncForPC 12345 = none) ∧
    (StackFrame.mk "" 0 "" "" 12345).Func (sampleRuntime 50 []) = none ∧
    NewStackFrame (sampleRuntime 50 []) 12345 = StackFrame.mk "" 0 "" "" 12345 ∧
    (NewStackFrame (sampleRuntime 50 []) 12345).ProgramCounter = 12345 ∧
    (NewStackFrame (sampleRuntime 50 []) 12345).File = "" ∧
    (NewStackFrame (sampleRuntime 50 []) 12345).Name = "" ∧
    (NewStackFrame (sampleRuntime 50 []) 12345).Package = "" ∧
    (NewStackFrame (sampleRuntime 50 []) 12345).LineNumber = 0 ∧
    (NewStackFrame (sampleRuntime 50 []) 12345).LineNumber ≤ 0 :=
  ⟨Or.inr rfl, NewStackFrame_unresolved (sampleRuntime 50 []) 12345 (Or.inr rfl)⟩

/-! ## Looking a source line up -/

/-- The scanning loop, started at a line not past the wanted one, returns on
the line whose index is the distance to it, trimmed, if the scanner delivers
that many lines. -/
theorem scanLoop_eq (lineNumber : Int) (lines : List String) (currentLine : Int)
    (hle : currentLine ≤ lineNumber) :
    scanLoop lineNumber currentLine lines =
      (lines[(lineNumber - currentLine).toNat]?).map (fun line => bytes.Trim line " \t") := by
  induction lines generalizing currentLine with
  | nil => simp [scanLoop]
  | cons line rest ih =>
    by_cases heq : currentLine = lineNumber
    · simp [scanLoop, heq]
    · have hlt : currentLine + 1 ≤ lineNumber := by omega
      have hidx : (lineNumber - currentLine).toNat = (lineNumber - (currentLine + 1)).toNat + 1 := by
        omega
      rw [scanLoop, if_neg heq, ih (currentLine + 1) hlt, hidx]
      simp

/-- What `trimLeft` removes lies in the cutset, and what it leaves does not
begin in the cutset. -/
theorem trimLeft_spec (cutset s : List Char) :
    ∃ pre, s = pre ++ trimLeft cutset s ∧ (∀ c ∈ pre, c ∈ cutset) ∧
      ∀ c, (trimLeft cutset s).head? = some c → c ∉ cutset := by
  induction s with
  | nil => exact ⟨[], by simp [trimLeft]⟩
  | cons x xs ih =>
    by_cases hx : x ∈ cutset
    · obtain ⟨pre, hsplit, hpre, hhead⟩ := ih
      refine ⟨x :: pre, ?_, ?_, ?_⟩
      · simp only [trimLeft, if_pos hx, List.cons_append]
        exact congrArg (List.cons x) hsplit
      · intro c hc
        rcases List.mem_cons.mp hc with h | h
        · exact h ▸ hx
        · exact hpre c h
      · simpa only [trimLeft, if_pos hx] using hhead
    · refine ⟨[], by simp [trimLeft, hx], by simp, ?_⟩
      intro c hc
      simp only [trimLeft, if_neg hx, List.head?_cons, Option.some.injEq] at hc
      exact hc ▸ hx

/-- What `trimRight` removes lies in the cutset, and what it leaves does not
end in the cutset. -/
theorem trimRight_spec (cutset s : List Char) :
    ∃ post, s = trimRight cutset s ++ post ∧ (∀ c ∈ post, c ∈ cutset) ∧
      ∀ c, (trimRight cutset s).getLast? = some c → c ∉ cutset := by
  obtain ⟨pre, hsplit, hpre, hhead⟩ := trimLeft_spec cutset s.reverse
  refine ⟨pre.reverse, ?_, ?_, ?_⟩
  · have h := congrArg List.reverse hsplit
    simpa [trimRight] using h
  · intro c hc
    exact hpre c (List.mem_reverse.mp hc)
  · intro c hc
    apply hhead c
    simpa [trimRight] using hc

/-- The call `bytes.Trim(line, cutset)` splits the line into a run of the
cutset, the result and a run of the cutset, and the result neither begins nor
ends in the cutset. -/
theorem Trim_spec (line cutset : String) :
    ∃ pre post, line.data = pre ++ (bytes.Trim line cutset).data ++ post ∧
      (∀ c ∈ pre, c ∈ cutset.data) ∧ (∀ c ∈ post, c ∈ cutset.data) ∧
      (∀ c, (bytes.Trim line cutset).data.head? = some c → c ∉ cutset.data) ∧
      ∀ c, (bytes.Trim line cutset).data.getLast? = some c → c ∉ cutset.data := by
  obtain ⟨pre, hleft, hpre, hhead⟩ := trimLeft_spec cutset.data line.data
  obtain ⟨post, hright, hpost, hlast⟩ := trimRight_spec cutset.data (trimLeft cutset.data line.data)
  refine ⟨pre, post, ?_, hpre, hpost, ?_, hlast⟩
  · simp only [bytes.Trim, List.append_assoc]
    rw [← hright]
    exact hleft
  · intro c hc
    apply hhead c
    simp only [bytes.Trim] at hc
    rw [hright]
    cases htrim : trimRight cutset.data (trimLeft cutset.data line.data) with
    | nil => simp [htrim] at hc
    | cons y ys =>
      rw [htrim] at hc
      simpa using hc

/-- The cutset of `sourceLine` holds the space and the tab. -/
theorem mem_cutset (c : Char) : c ∈ " \t".data ↔ c = ' ' ∨ c = '\t' := by
  have h : " \t".data = [' ', '\t'] := rfl
  rw [h]
  simp

/-- Claim C13: for a frame with `LineNumber <= 0`, `SourceLine` returns the
placeholder "???" and no failure, whatever the file system holds and whatever
`File` is: the result does not depend on the file system. -/
theorem SourceLine_unknown_line (fs : FileSystem) (frame : StackFrame)
    (hline : frame.LineNumber ≤ 0) :
    frame.SourceLine fs = ("???", none) := by
  simp [StackFrame.SourceLine, StackFrame.sourceLine, hline]

/-- Witness of `SourceLine_unknown_line`: the zero frame, on a file system
that refuses every path. -/
theorem SourceLine_unknown_line_witness :
    StackFrame.zero.LineNumber ≤ 0 ∧
    StackFrame.zero.SourceLine (FileSystem.mk (fun _ => .error FsError.permission)) =
      ("???", none) :=
  ⟨by decide,
    SourceLine_unknown_line (FileSystem.mk (fun _ => .error FsError.permission)) StackFrame.zero
      (by decide)⟩

/-- Claim C14: for a frame with `LineNumber > 0` whose `File` cannot be opened,
`SourceLine` returns the empty string with the error of `os.Open`, and not the
placeholder. -/
theorem SourceLine_open_failure (fs : FileSystem) (frame : StackFrame) (err : FsError)
    (hline : 0 < frame.LineNumber) (hopen : fs.Open frame.File = .error err) :
    frame.SourceLine fs = ("", some err) ∧ frame.SourceLine fs ≠ ("???", none) := by
  have hnot : ¬ frame.LineNumber ≤ 0 := by omega
  have hres : frame.SourceLine fs = ("", some err) := by
    simp [StackFrame.SourceLine, StackFrame.sourceLine, hnot, hopen]
  refine ⟨hres, ?_⟩
  rw [hres]
  simp

/-- Witness of `SourceLine_open_failure`: the frame of the test function, whose
file the sample file system does not hold. -/
theorem SourceLine_open_failure_witness :
    0 < (NewStackFrame (sampleRuntime 50 []) 8192).LineNumber ∧
    sampleFs.Open (NewStackFrame (sampleRuntime 50 []) 8192).File = .error FsError.notExist ∧
    (NewStackFrame (sampleRuntime 50 []) 8192).SourceLine sampleFs = ("", some FsError.notExist) ∧
    (NewStackFrame (sampleRuntime 50 []) 8192).SourceLine sampleFs ≠ ("???", none) :=
  ⟨by decide, rfl,
    SourceLine_open_failure sampleFs (NewStackFrame (sampleRuntime 50 []) 8192) FsError.notExist
      (by decide) rfl⟩

/-- Claim C15: for a frame with `LineNumber` n > 0 whose file opens and is read
without error but has fewer than n lines, `SourceLine` returns the placeholder
"???" and no failure. -/
theorem SourceLine_short_file (fs : FileSystem) (frame : StackFrame) (file : File)
    (hline : 0 < frame.LineNumber) (hopen : fs.Open frame.File = .ok file)
    (hread : file.scanErr = none) (hshort : (file.lines.length : Int) < frame.LineNumber) :
    frame.SourceLine fs = ("???", none) := by
  have hnot : ¬ frame.LineNumber ≤ 0 := by omega
  have hscan : scanLoop frame.LineNumber 1 file.lines = none := by
    have hidx : file.lines.length ≤ (frame.LineNumber - 1).toNat := by omega
    rw [scanLoop_eq frame.LineNumber file.lines 1 (by omega), List.getElem?_eq_none hidx]
    rfl
  simp [StackFrame.SourceLine, StackFrame.sourceLine, hnot, hopen, hscan, hread]

/-- Witness of `SourceLine_short_file`: line 28 of `samplesrc/samples.go`, which
has 27 lines. -/
theorem SourceLine_short_file_witness :
    0 < (StackFrame.mk samplesFile 28 "Repository" "samplesrc" 4608).LineNumber ∧
    sampleFs.Open (StackFrame.mk samplesFile 28 "Repository" "samplesrc" 4608).File =
      .ok (File.mk samplesLines none) ∧
    (File.mk samplesLines none).scanErr = none ∧
    (((File.mk samplesLines none).lines.length : Nat) : Int) <
      (StackFrame.mk samplesFile 28 "Repository" "samplesrc" 4608).LineNumber ∧
    (StackFrame.mk samplesFile 28 "Repository" "samplesrc" 4608).SourceLine sampleFs =
      ("???", none) :=
  ⟨by decide, rfl, rfl, by decide,
    SourceLine_short_file sampleFs (StackFrame.mk samplesFile 28 "Repository" "samplesrc" 4608)
      (File.mk samplesLines none) (by decide) rfl rfl (by decide)⟩

/-- Claim C16, amended: for a frame with `LineNumber` n > 0 whose file opens
and from which the scanner delivers at least n lines, `SourceLine` returns,
with no failure, the n-th line (counted from 1) without its leading and
trailing spaces and tabs: the line is a run of spaces and tabs, the result, and
a run of spaces and tabs, and the result neither begins nor ends with a space
or a tab. -/
theorem SourceLine_trimmed_line (fs : FileSystem) (frame : StackFrame) (file : File)
    (hline : 0 < frame.LineNumber) (hopen : fs.Open frame.File = .ok file)
    (hlen : frame.LineNumber ≤ (file.lines.length : Int)) :
    ∃ (line source : String) (pre post : List Char),
      file.lines[(frame.LineNumber - 1).toNat]? = some line ∧
      frame.SourceLine fs = (source, none) ∧
      line.data = pre ++ source.data ++ post ∧
      (∀ c ∈ pre, c = ' ' ∨ c = '\t') ∧ (∀ c ∈ post, c = ' ' ∨ c = '\t') ∧
      (∀ c, source.data.head? = some c → c ≠ ' ' ∧ c ≠ '\t') ∧
      ∀ c, source.data.getLast? = some c → c ≠ ' ' ∧ c ≠ '\t' := by
  have hnot : ¬ frame.LineNumber ≤ 0 := by omega
  have hidx : (frame.LineNumber - 1).toNat < file.lines.length := by omega
  have hget : file.lines[(frame.LineNumber - 1).toNat]? =
      some (file.lines[(frame.LineNumber - 1).toNat]) := List.getElem?_eq_getElem hidx
  have hscan : scanLoop frame.LineNumber 1 file.lines =
      some (bytes.Trim (file.lines[(frame.LineNumber - 1).toNat]) " \t") := by
    rw [scanLoop_eq frame.LineNumber file.lines 1 (by omega), hget]
    rfl
  obtain ⟨pre, post, hsplit, hpre, hpost, hhead, hlast⟩ :=
    Trim_spec (file.lines[(frame.LineNumber - 1).toNat]) " \t"
  refine ⟨_, bytes.Trim (file.lines[(frame.LineNumber - 1).toNat]) " \t", pre, post, hget, ?_,
    hsplit, ?_, ?_, ?_, ?_⟩
  · simp [StackFrame.SourceLine, StackFrame.sourceLine, hnot, hopen, hscan]
  · intro c hc
    exact (mem_cutset c).mp (hpre c hc)
  · intro c hc
    exact (mem_cutset c).mp (hpost c hc)
  · intro c hc
    have h := hhead c hc
    rw [mem_cutset] at h
    exact not_or.mp h
  · intro c hc
    have h := hlast c hc
    rw [mem_cutset] at h
    exact not_or.mp h

/-- The source line of the root cause of the sample chain. -/
theorem SourceLine_sampleRepository :
    (NewStackFrame (sampleRuntime 50 []) 4608).SourceLine sampleFs =
      ("return goerr.New(nil, err.Error())", none) := by
  rfl

/-- Witness of `SourceLine_trimmed_line`: line 26 of `samplesrc/samples.go`,
the capture site of the root cause of the sample chain. -/
theorem SourceLine_trimmed_line_witness :
    0 < (NewStackFrame (sampleRuntime 50 []) 4608).LineNumber ∧
    sampleFs.Open (NewStackFrame (sampleRuntime 50 []) 4608).File =
      .ok (File.mk samplesLines none) ∧
    (NewStackFrame (sampleRuntime 50 []) 4608).LineNumber ≤
      (((File.mk samplesLines none).lines.length : Nat) : Int) ∧
    ∃ (line source : String) (pre post : List Char),
      (File.mk samplesLines none).lines[
        ((NewStackFrame (sampleRuntime 50 []) 4608).LineNumber - 1).toNat]? = some line ∧
      (NewStackFrame (sampleRuntime 50 []) 4608).SourceLine sampleFs = (source, none) ∧
      line.data = pre ++ source.data ++ post ∧
      (∀ c ∈ pre, c = ' ' ∨ c = '\t') ∧ (∀ c ∈ post, c = ' ' ∨ c = '\t') ∧
      (∀ c, source.data.head? = some c → c ≠ ' ' ∧ c ≠ '\t') ∧
      ∀ c, source.data.getLast? = some c → c ≠ ' ' ∧ c ≠ '\t' :=
  ⟨by decide, rfl, by decide,
    SourceLine_trimmed_line sampleFs (NewStackFrame (sampleRuntime 50 []) 4608)
      (File.mk samplesLines none) (by decide) rfl (by decide)⟩

/-! ## Package and name of a symbol -/

/-- Without an occurrence, `lastIndexChars` is `-1`. -/
theorem lastIndexChars_of_not_mem (c : Char) (s : List Char) (h : c ∉ s) :
    lastIndexChars c s = -1 := by
  induction s with
  | nil => rfl
  | cons x xs ih =>
    simp only [List.mem_cons, not_or] at h
    have hx : ¬ x = c := fun e => h.1 e.symm
    simp [lastIndexChars, ih h.2, hx]

/-- The last occurrence is the one that nothing follows. -/
theorem lastIndexChars_append (c : Char) (p seg : List Char) (h : c ∉ seg) :
    lastIndexChars c (p ++ c :: seg) = (p.length : Int) := by
  induction p with
  | nil => simp [lastIndexChars, lastIndexChars_of_not_mem c seg h]
  | cons x xs ih =>
    have hnn : (0 : Int) ≤ (xs.length : Int) := by omega
    simp [lastIndexChars, ih, hnn]

/-- Without an occurrence, `indexChars` is `-1`. -/
theorem indexChars_of_not_mem (c : Char) (s : List Char) (h : c ∉ s) :
    indexChars c s = -1 := by
  induction s with
  | nil => rfl
  | cons x xs ih =>
    simp only [List.mem_cons, not_or] at h
    have hx : ¬ x = c := fun e => h.1 e.symm
    simp [indexChars, ih h.2, hx]

/-- The first occurrence is the one that nothing precedes. -/
theorem indexChars_append (c : Char) (k r : List Char) (h : c ∉ k) :
    indexChars c (k ++ c :: r) = (k.length : Int) := by
  induction k with
  | nil => simp [indexChars]
  | cons x xs ih =>
    simp only [List.mem_cons, not_or] at h
    have hx : ¬ x = c := fun e => h.1 e.symm
    have hnn : ¬ ((xs.length : Int) < 0) := by omega
    simp [indexChars, ih h.2, hx, hnn]

/-- Replacing is a map over the code points. -/
theorem replaceChars_eq_map (old new : Char) (s : List Char) :
    replaceChars old new s = s.map (fun c => if c = old then new else c) := by
  induction s with
  | nil => rfl
  | cons x xs ih => simp [replaceChars, ih]

/-- Replacing leaves a text without the old code point as it is. -/
theorem replaceChars_of_not_mem (old new : Char) (s : List Char) (h : old ∉ s) :
    replaceChars old new s = s := by
  induction s with
  | nil => rfl
  | cons x xs ih =>
    simp only [List.mem_cons, not_or] at h
    have hx : ¬ x = old := fun e => h.1 e.symm
    simp [replaceChars, ih h.2, hx]

/-- After replacing, a code point other than the new one occurs only if it
occurred before, and the old one does not occur. -/
theorem mem_replaceChars (old new c : Char) (s : List Char) (hc : c ≠ new)
    (h : c ∈ replaceChars old new s) : c ∈ s ∧ c ≠ old := by
  induction s with
  | nil => simp [replaceChars] at h
  | cons x xs ih =>
    simp only [replaceChars, List.mem_cons] at h
    rcases h with h | h
    · by_cases hx : x = old
      · rw [if_pos hx] at h
        exact absurd h hc
      · rw [if_neg hx] at h
        exact ⟨by simp [h], h ▸ hx⟩
    · exact ⟨List.mem_cons_of_mem _ (ih h).1, (ih h).2⟩

/-- The result of `packageAndName` on a symbol that is `pre` followed by `seg`,
where `seg` holds no slash and `pre` is empty or ends in a slash: without a dot
in `seg` the package is `pre` and the name is `seg`; with a first dot in `seg`
the package is `pre` and what precedes the dot, the name is what follows it; in
the name every center dot is replaced. -/
theorem packageAndName_parts (fn : Func) (pre seg : List Char) (hseg : '/' ∉ seg)
    (hname : fn.name.data = pre ++ seg) (hpre : pre = [] ∨ ∃ p, pre = p ++ ['/']) :
    ('.' ∉ seg →
      packageAndName fn = (String.mk pre, String.mk (replaceChars '·' '.' seg))) ∧
    ∀ k r, '.' ∉ k → seg = k ++ '.' :: r →
      packageAndName fn = (String.mk (pre ++ k), String.mk (replaceChars '·' '.' r)) := by
  have hstage :
      (if 0 ≤ strings.LastIndex fn.name '/'
        then "" ++ (sliceTo fn.name (strings.LastIndex fn.name '/') ++ "/") else "") = String.mk pre ∧
      (if 0 ≤ strings.LastIndex fn.name '/'
        then sliceFrom fn.name (strings.LastIndex fn.name '/' + 1) else fn.name) = String.mk seg := by
    rcases hpre with hp | ⟨p, hp⟩
    · subst hp
      have hidx : strings.LastIndex fn.name '/' = -1 := by
        simp only [strings.LastIndex, hname, List.nil_append]
        exact lastIndexChars_of_not_mem '/' seg hseg
      rw [hidx]
      constructor
      · rw [if_neg (by omega)]
      · rw [if_neg (by omega)]
        exact String.ext (by simpa using hname)
    · subst hp
      have hname2 : fn.name.data = p ++ '/' :: seg := by simpa using hname
      have hidx : strings.LastIndex fn.name '/' = (p.length : Int) := by
        simp only [strings.LastIndex, hname2]
        exact lastIndexChars_append '/' p seg hseg
      have hnn : (0 : Int) ≤ (p.length : Int) := by omega
      have hsucc : ((p.length : Int) + 1).toNat = p.length + 1 := by omega
      rw [hidx]
      simp only [hnn, if_true]
      constructor
      · apply String.ext
        simp [sliceTo, hname2, String.data_append]
      · apply String.ext
        simp only [sliceFrom, hsucc, hname2]
        have : p ++ '/' :: seg = (p ++ ['/']) ++ seg := by simp
        rw [this, List.drop_left' (by simp)]
  obtain ⟨hpkg, hrest⟩ := hstage
  constructor
  · intro hdot
    have hidx : strings.Index (String.mk seg) '.' = -1 := by
      simp only [strings.Index]
      exact indexChars_of_not_mem '.' seg hdot
    simp only [packageAndName, hpkg, hrest, hidx, show ¬ ((0 : Int) ≤ -1) by omega, if_false]
    rfl
  · intro k r hk hsplit
    have hidx : strings.Index (String.mk seg) '.' = (k.length : Int) := by
      simp only [strings.Index, hsplit]
      exact indexChars_append '.' k r hk
    have hnn : (0 : Int) ≤ (k.length : Int) := by omega
    have hsucc : ((k.length : Int) + 1).toNat = k.length + 1 := by omega
    simp only [packageAndName, hpkg, hrest, hidx, hnn, if_true]
    refine Prod.ext (String.ext ?_) ?_
    · simp [sliceTo, hsplit, String.data_append]
    · simp only [strings.Replace, sliceFrom, hsucc, hsplit]
      have : k ++ '.' :: r = (k ++ ['.']) ++ r := by simp
      rw [this, List.drop_left' (by simp)]

/-- Claim C17: on a symbol p, "/", k, ".", r, where k holds neither a slash nor
a dot and r holds no slash, `packageAndName` returns the package p, "/", k and
the name r with every center dot replaced by a dot; so
"runtime/debug.*T·ptrmethod" gives "runtime/debug" and "*T.ptrmethod". -/
theorem packageAndName_path (p k r : String) (fileLine : Nat → String × Int)
    (hkslash : '/' ∉ k.data) (hkdot : '.' ∉ k.data) (hr : '/' ∉ r.data) :
    packageAndName (Func.mk (p ++ "/" ++ k ++ "." ++ r) fileLine) =
      (p ++ "/" ++ k, String.mk (r.data.map (fun c => if c = '·' then '.' else c))) ∧
    packageAndName (Func.mk "runtime/debug.*T·ptrmethod" fileLine) =
      ("runtime/debug", "*T.ptrmethod") := by
  refine ⟨?_, rfl⟩
  have hseg : '/' ∉ k.data ++ '.' :: r.data := by
    simp only [List.mem_append, List.mem_cons, not_or]
    exact ⟨hkslash, by decide, hr⟩
  have hname : (Func.mk (p ++ "/" ++ k ++ "." ++ r) fileLine).name.data =
      (p.data ++ ['/']) ++ (k.data ++ '.' :: r.data) := by
    have hslash : "/".data = ['/'] := rfl
    have hdot : ".".data = ['.'] := rfl
    simp [String.data_append, hslash, hdot]
  have hparts := (packageAndName_parts (Func.mk (p ++ "/" ++ k ++ "." ++ r) fileLine)
    (p.data ++ ['/']) (k.data ++ '.' :: r.data) hseg hname (Or.inr ⟨p.data, rfl⟩)).2
    k.data r.data hkdot rfl
  rw [hparts, replaceChars_eq_map]
  refine Prod.ext (String.ext ?_) rfl
  have hslash : "/".data = ['/'] := rfl
  simp [String.data_append, hslash]

/-- Witness of `packageAndName_path`: the symbol of `samplesrc.Controller`. -/
theorem packageAndName_path_witness :
    '/' ∉ "samplesrc".data ∧ '.' ∉ "samplesrc".data ∧ '/' ∉ "Controller".data ∧
    packageAndName (Func.mk ("github.com/madhanganesh/goerr" ++ "/" ++ "samplesrc" ++ "." ++
        "Controller") (fun _ => (samplesFile, 11))) =
      ("github.com/madhanganesh/goerr" ++ "/" ++ "samplesrc",
        String.mk ("Controller".data.map (fun c => if c = '·' then '.' else c))) ∧
    packageAndName (Func.mk "runtime/debug.*T·ptrmethod" (fun _ => (samplesFile, 11))) =
      ("runtime/debug", "*T.ptrmethod") :=
  ⟨by decide, by decide, by decide,
    packageAndName_path "github.com/madhanganesh/goerr" "samplesrc" "Controller"
      (fun _ => (samplesFile, 11)) (by decide) (by decide) (by decide)⟩

/-- Claim C20: on a symbol without center dots, `packageAndName` loses nothing:
with `seg` the part after the last slash (the whole symbol if it has none), the
package, a dot and the name give the symbol back when `seg` holds a dot, the
package and the name give it back otherwise, and the name holds neither a slash
nor a center dot. -/
theorem packageAndName_lossless (fn : Func) (seg : String) (hdots : '·' ∉ fn.name.data)
    (hseg : '/' ∉ seg.data)
    (hshape : fn.name = seg ∨ ∃ p : String, fn.name = p ++ "/" ++ seg) :
    ('.' ∈ seg.data → (packageAndName fn).1 ++ "." ++ (packageAndName fn).2 = fn.name) ∧
    ('.' ∉ seg.data → (packageAndName fn).1 ++ (packageAndName fn).2 = fn.name) ∧
    '/' ∉ (packageAndName fn).2.data ∧ '·' ∉ (packageAndName fn).2.data := by
  have hslash : "/".data = ['/'] := rfl
  have hdot : ".".data = ['.'] := rfl
  obtain ⟨pre, hname, hpre⟩ : ∃ pre, fn.name.data = pre ++ seg.data ∧
      (pre = [] ∨ ∃ p, pre = p ++ ['/']) := by
    rcases hshape with h | ⟨p, h⟩
    · exact ⟨[], by simp [h], Or.inl rfl⟩
    · exact ⟨p.data ++ ['/'], by simp [h, String.data_append, hslash], Or.inr ⟨p.data, rfl⟩⟩
  have hsegdots : '·' ∉ seg.data := by
    intro h
    exact hdots (by rw [hname]; exact List.mem_append_right pre h)
  obtain ⟨hplain, hdotted⟩ := packageAndName_parts fn pre seg.data hseg hname hpre
  by_cases hmem : '.' ∈ seg.data
  · obtain ⟨k, r, hsplit, hk⟩ := List.eq_append_cons_of_mem hmem
    have hrslash : '/' ∉ r := by
      intro h
      exact hseg (by rw [hsplit]; simp [h])
    have hrdots : '·' ∉ r := by
      intro h
      exact hsegdots (by rw [hsplit]; simp [h])
    have hres := hdotted k r hk hsplit
    rw [replaceChars_of_not_mem _ _ r hrdots] at hres
    rw [hres]
    refine ⟨fun _ => String.ext ?_, fun h => absurd hmem h, hrslash, hrdots⟩
    simp [String.data_append, hdot, hname, hsplit]
  · have hres := hplain hmem
    rw [replaceChars_of_not_mem _ _ seg.data hsegdots] at hres
    rw [hres]
    refine ⟨fun h => absurd h hmem, fun _ => String.ext ?_, hseg, hsegdots⟩
    simp [String.data_append, hname]

/-- Witness of `packageAndName_lossless`: the symbol of `samplesrc.Controller`,
whose part after the last slash is "samplesrc.Controller". -/
theorem packageAndName_lossless_witness :
    '·' ∉ (Func.mk "github.com/madhanganesh/goerr/samplesrc.Controller"
      (fun _ => (samplesFile, 11))).name.data ∧
    '/' ∉ "samplesrc.Controller".data ∧
    ((Func.mk "github.com/madhanganesh/goerr/samplesrc.Controller"
        (fun _ => (samplesFile, 11))).name = "samplesrc.Controller" ∨
      ∃ p : String, (Func.mk "github.com/madhanganesh/goerr/samplesrc.Controller"
        (fun _ => (samplesFile, 11))).name = p ++ "/" ++ "samplesrc.Controller") ∧
    ('.' ∈ "samplesrc.Controller".data →
      (packageAndName (Func.mk "github.com/madhanganesh/goerr/samplesrc.Controller"
        (fun _ => (samplesFile, 11)))).1 ++ "." ++
      (packageAndName (Func.mk "github.com/madhanganesh/goerr/samplesrc.Controller"
        (fun _ => (samplesFile, 11)))).2 =
      (Func.mk "github.com/madhanganesh/goerr/samplesrc.Controller"
        (fun _ => (samplesFile, 11))).name) ∧
    ('.' ∉ "samplesrc.Controller".data →
      (packageAndName (Func.mk "github.com/madhanganesh/goerr/samplesrc.Controller"
        (fun _ => (samplesFile, 11)))).1 ++
      (packageAndName (Func.mk "github.com/madhanganesh/goerr/samplesrc.Controller"
        (fun _ => (samplesFile, 11)))).2 =
      (Func.mk "github.com/madhanganesh/goerr/samplesrc.Controller"
        (fun _ => (samplesFile, 11))).name) ∧
    '/' ∉ (packageAndName (Func.mk "github.com/madhanganesh/goerr/samplesrc.Controller"
      (fun _ => (samplesFile, 11)))).2.data ∧
    '·' ∉ (packageAndName (Func.mk "github.com/madhanganesh/goerr/samplesrc.Controller"
      (fun _ => (samplesFile, 11)))).2.data :=
  ⟨by decide, by decide, Or.inr ⟨"github.com/madhanganesh/goerr", by decide⟩,
    packageAndName_lossless
      (Func.mk "github.com/madhanganesh/goerr/samplesrc.Controller" (fun _ => (samplesFile, 11)))
      "samplesrc.Controller" (by decide) (by decide)
      (Or.inr ⟨"github.com/madhanganesh/goerr", by decide⟩)⟩

/-! ## A node around an error -/

/-- Claim C18: for a node of this package that holds a frame and wraps a non-nil
error, `ListStacks` gives the display line of the node followed by what
`ListStacks` gives for the wrapped error; around an error of another package it
gives two lines, the second the `Error()` text of that error, and `Stack`
renders them as a staircase of two levels. -/
theorem ListStacks_wrapping (rt : Runtime) (err : error) (m : String) (stack : List Nat)
    (f0 : StackFrame) (frames : List StackFrame) (herr : err ≠ error.nil) :
    ListStacks rt (error.errorEx err m stack (f0 :: frames)) =
      (match ListStacks rt err with
       | .error p => .error p
       | .ok more => .ok (nodeLine rt m f0 :: more)) ∧
    ∀ text : String,
      ListStacks rt (error.errorEx (error.foreign text) m stack (f0 :: frames)) =
        .ok [nodeLine rt m f0, text] ∧
      Stack rt (error.errorEx (error.foreign text) m stack (f0 :: frames)) =
        .ok ("\n" ++ nodeLine rt m f0 ++ "\n" ++ "\t" ++ text) := by
  constructor
  · rw [ListStacks_node, if_neg herr]
  · intro text
    have hlist : ListStacks rt (error.errorEx (error.foreign text) m stack (f0 :: frames)) =
        .ok [nodeLine rt m f0, text] := by
      rw [ListStacks_node]
      simp [ListStacks]
    refine ⟨hlist, ?_⟩
    simp only [Stack, hlist]
    exact congrArg Except.ok (String.ext (by
      simp [stackLoop, appendTabs, String.data_append, List.append_assoc]))

/-- Witness of `ListStacks_wrapping`: the capture site of `samplesrc.Repository`
around the error of `TestStackNonGoErr`. -/
theorem ListStacks_wrapping_witness :
    error.foreign "some sample error" ≠ error.nil ∧
    ListStacks (sampleRuntime 50 [])
        (error.errorEx (error.foreign "some sample error") "read failed" [4608]
          (NewStackFrame (sampleRuntime 50 []) 4608 :: [])) =
      (match ListStacks (sampleRuntime 50 []) (error.foreign "some sample error") with
       | .error p => .error p
       | .ok more =>
         .ok (nodeLine (sampleRuntime 50 []) "read failed"
           (NewStackFrame (sampleRuntime 50 []) 4608) :: more)) ∧
    ∀ text : String,
      ListStacks (sampleRuntime 50 [])
          (error.errorEx (error.foreign text) "read failed" [4608]
            (NewStackFrame (sampleRuntime 50 []) 4608 :: [])) =
        .ok [nodeLine (sampleRuntime 50 []) "read failed"
          (NewStackFrame (sampleRuntime 50 []) 4608), text] ∧
      Stack (sampleRuntime 50 [])
          (error.errorEx (error.foreign text) "read failed" [4608]
            (NewStackFrame (sampleRuntime 50 []) 4608 :: [])) =
        .ok ("\n" ++ nodeLine (sampleRuntime 50 []) "read failed"
          (NewStackFrame (sampleRuntime 50 []) 4608) ++ "\n" ++ "\t" ++ text) :=
  ⟨by decide,
    ListStacks_wrapping (sampleRuntime 50 []) (error.foreign "some sample error") "read failed"
      [4608] (NewStackFrame (sampleRuntime 50 []) 4608) [] (by decide)⟩

/-- Claim C19: on a non-nil error whose nodes of this package each hold a frame,
`ListStacks` returns a non-empty sequence; so `Stack` never takes its branch for
no lines, and its result is empty only if there is a single line and that line
is empty. -/
theorem ListStacks_nonempty (rt : Runtime) (e : error) (hnil : e ≠ error.nil)
    (hframed : framed e = true) :
    ∃ (lines : List String) (text : String),
      ListStacks rt e = .ok lines ∧ lines ≠ [] ∧ lines.length ≠ 0 ∧
      Stack rt e = .ok text ∧ (text = "" → lines = [""]) := by
  obtain ⟨lines, hlines, hne⟩ := ListStacks_returns_of_framed rt e hnil hframed
  match lines, hne with
  | [line], _ =>
    refine ⟨[line], line, hlines, by simp, by simp, by simp [Stack, hlines], ?_⟩
    intro h
    rw [h]
  | l0 :: l1 :: rest, _ =>
    refine ⟨l0 :: l1 :: rest, stackLoop "" 0 (l0 :: l1 :: rest), hlines, by simp, by simp,
      by simp [Stack, hlines], ?_⟩
    intro h
    rw [stackLoop_eq] at h
    have hdata := congrArg String.data h
    have hnewline : "\n".data = ['\n'] := rfl
    simp [staircaseFrom, String.data_append, hnewline] at hdata

/-- Witness of `ListStacks_nonempty`: the three-node sample chain. -/
theorem ListStacks_nonempty_witness :
    sampleChain ≠ error.nil ∧ framed sampleChain = true ∧
    ∃ (lines : List String) (text : String),
      ListStacks (sampleRuntime 50 []) sampleChain = .ok lines ∧ lines ≠ [] ∧
      lines.length ≠ 0 ∧
      Stack (sampleRuntime 50 []) sampleChain = .ok text ∧ (text = "" → lines = [""]) :=
  ⟨by decide, by decide,
    ListStacks_nonempty (sampleRuntime 50 []) sampleChain (by decide) (by decide)⟩

/-! ## Lines the scanner does not deliver -/

/-- The byte size of a run of the letter x is its length. -/
theorem utf8ByteSize_replicate (n : Nat) :
    (String.mk (List.replicate n 'x')).utf8ByteSize = n := by
  have hgo : ∀ k : Nat, String.utf8ByteSize.go (List.replicate k 'x') = k := by
    intro k
    induction k with
    | zero => rfl
    | succ k ih =>
      have hsize : Char.utf8Size 'x' = 1 := by decide
      simp only [List.replicate_succ, String.utf8ByteSize.go, ih, hsize]
  exact hgo n

/-- The scanner delivers nothing from the file of `longLines` and reports that
a line is too long. -/
theorem scanFile_longLines :
    (scanFile longLines).lines = [] ∧ (scanFile longLines).scanErr = some FsError.tokenTooLong := by
  have hlong : MaxScanTokenSize ≤ longLine.utf8ByteSize := by
    rw [longLine, utf8ByteSize_replicate]
  simp only [longLines, scanFile, if_pos hlong, and_self]

/-- The scanner delivers the first n lines of a file as they are when each of
them fits its buffer. -/
theorem scanFile_take (disk : List String) (n : Nat)
    (hfit : ∀ line ∈ disk.take n, line.utf8ByteSize < MaxScanTokenSize) :
    (scanFile disk).lines.take n = disk.take n := by
  induction disk generalizing n with
  | nil => simp [scanFile]
  | cons line rest ih =>
    cases n with
    | zero => simp
    | succ n =>
      have hline : ¬ MaxScanTokenSize ≤ line.utf8ByteSize := by
        have := hfit line (by simp)
        omega
      have hrest : ∀ l ∈ rest.take n, l.utf8ByteSize < MaxScanTokenSize := by
        intro l hl
        exact hfit l (by simp [hl])
      simp [scanFile, hline, ih n hrest]

/-- When the scanner stops with an error before it has delivered the wanted
line, `SourceLine` returns the empty string with that error. -/
theorem SourceLine_scan_failure (fs : FileSystem) (frame : StackFrame) (file : File)
    (err : FsError) (hline : 0 < frame.LineNumber) (hopen : fs.Open frame.File = .ok file)
    (hshort : (file.lines.length : Int) < frame.LineNumber) (herr : file.scanErr = some err) :
    frame.SourceLine fs = ("", some err) := by
  have hnot : ¬ frame.LineNumber ≤ 0 := by omega
  have hscan : scanLoop frame.LineNumber 1 file.lines = none := by
    have hidx : file.lines.length ≤ (frame.LineNumber - 1).toNat := by omega
    rw [scanLoop_eq frame.LineNumber file.lines 1 (by omega), List.getElem?_eq_none hidx]
    rfl
  simp [StackFrame.SourceLine, StackFrame.sourceLine, hnot, hopen, hscan, herr]

/-- Claim C16, refuted on a file of two lines whose first line has
`MaxScanTokenSize` bytes: the file opens and has at least 2 lines, and for the
frame at line 2 `SourceLine` returns the empty string with the error of the
scanner, not the second line. -/
theorem SourceLine_fails_on_long_line :
    longFs.Open (StackFrame.mk "/go/src/long.go" 2 "f" "main" 4096).File =
      .ok (scanFile longLines) ∧
    0 < (StackFrame.mk "/go/src/long.go" 2 "f" "main" 4096).LineNumber ∧
    (StackFrame.mk "/go/src/long.go" 2 "f" "main" 4096).LineNumber ≤ (longLines.length : Int) ∧
    (StackFrame.mk "/go/src/long.go" 2 "f" "main" 4096).SourceLine longFs =
      ("", some FsError.tokenTooLong) ∧
    ∀ source : String,
      (StackFrame.mk "/go/src/long.go" 2 "f" "main" 4096).SourceLine longFs ≠ (source, none) := by
  obtain ⟨hlines, herr⟩ := scanFile_longLines
  have hopen : longFs.Open "/go/src/long.go" = .ok (scanFile longLines) := by
    simp only [longFs, if_true]
  have hres : (StackFrame.mk "/go/src/long.go" 2 "f" "main" 4096).SourceLine longFs =
      ("", some FsError.tokenTooLong) :=
    SourceLine_scan_failure longFs (StackFrame.mk "/go/src/long.go" 2 "f" "main" 4096)
      (scanFile longLines) FsError.tokenTooLong (by decide) hopen
      (by rw [hlines]; decide) herr
  refine ⟨hopen, by decide, by decide, hres, ?_⟩
  intro source h
  rw [hres] at h
  simp at h

/-! ## A node without frames -/

/-- Claim C4, evaluated: with `MaxStackDepth` set to 0, the node `New` builds
around nothing holds no frame, `ListStacks` produces no line for it, and `Stack`
aborts with an index out of range instead of returning a display line. -/
theorem Stack_single_node_aborts_without_frames :
    sampleRepository 0 = .ok (sampleRoot 0) ∧
    sampleRoot 0 = error.errorEx error.nil "error from database" [] [] ∧
    framesOf (sampleRoot 0) = [] ∧
    Stack (sampleRuntime 0 []) (sampleRoot 0) = .error Panic.indexOutOfRange ∧
    ∀ line : String, Stack (sampleRuntime 0 []) (sampleRoot 0) ≠ .ok line := by
  have hstack : Stack (sampleRuntime 0 []) (sampleRoot 0) = .error Panic.indexOutOfRange := rfl
  refine ⟨rfl, rfl, rfl, hstack, ?_⟩
  intro line h
  rw [hstack] at h
  cases h

end Goerr
